import Mathlib

/-!
Verification of the `state-dict-rs` serializer (`src/ser.rs`, `src/error.rs`).

The crate flattens a serde-serializable value into a `HashMap<String, f64>`
mapping hierarchical path strings (built from the root marker `$` with
`.field` and `[index]` segments) to doubles.

Shallow embedding notes:
- `f64` is modelled by the inductive `F64`: a NaN constructor, two infinity
  constructors and a rational payload for finite values.  The program never
  computes with doubles; it only moves them around, converts integers
  (modelled exactly, the rounding above 2^53 is irrelevant to every claim
  here) and writes the NaN sentinel.
- The serde data model is the mutual inductive `Value`/`ValueList`/
  `FieldList`/`EntryList`; the generic dispatcher (serde derive) drives the
  visitor exactly once per node in the documented begin/element/end
  protocol, which is inlined in `serializeValue` below, method by method.
- The serializer state `Serializer` mirrors the Rust struct: the `Vec<String>`
  path stack is a `List String` with the top of the Vec at the head of the
  list; the `HashMap<String, f64>` output is an insertion-ordered association
  list with replace-on-existing-key semantics (`assocInsert`), so its length
  is the entry count of the hash map.
- Fallible steps return `SRes`, which keeps the mutated serializer state on
  the error path as well (the Rust serializer is a `&mut` borrow, so its
  state survives an `Err` return).  The `assert_ne!(self.pos.len(), 0)` in
  `Serializer::insert` is modelled by the `assertFail` outcome.
- `Error::KeyNotString` is constructed throughout `ser.rs`; the declaration
  of the public enum in `error.rs` (lines 6-14) however only lists
  `Message`, `Unsupported`, `InternalError`.  The embedding includes the
  variant (it is what `ser.rs` constructs) and records the declared list
  separately in `errorRsDeclaredVariants`.
-/

namespace StateDict

/-- Model of `f64`: NaN, the two infinities, and finite values as rationals.
The code never does float arithmetic; integers are embedded exactly. -/
inductive F64 where
  | nan : F64
  | inf : F64
  | neginf : F64
  | num : ℚ → F64
deriving DecidableEq, Repr

/-- The is-NaN predicate on the `f64` model. -/
def F64.isNaN : F64 → Bool
  | .nan => true
  | _ => false

/-- Widening `i64 -> f64` (`v as f64` in `serialize_i64`), embedded exactly. -/
def F64.ofInt (n : Int) : F64 := .num n

/-- Widening `u64 -> f64` (`v as f64` in `serialize_u64`), embedded exactly. -/
def F64.ofNat (n : Nat) : F64 := .num n

/-- The error type used by `ser.rs`.  `KeyNotString` is the variant the key
extractor constructs; see `errorRsDeclaredVariants` for what `error.rs`
actually declares. -/
inductive Error where
  | Message : String → Error
  | Unsupported : Error
  | KeyNotString : Error
  | InternalError : Error
deriving DecidableEq, Repr

/-- The variant names of the public `Error` enum as declared in
`src/error.rs` lines 6-14: only `Message`, `Unsupported` and
`InternalError` appear there. -/
def errorRsDeclaredVariants : List String := ["Message", "Unsupported", "InternalError"]

/-- Name of an error variant, for comparison with the declared list. -/
def Error.variantName : Error → String
  | .Message _ => "Message"
  | .Unsupported => "Unsupported"
  | .KeyNotString => "KeyNotString"
  | .InternalError => "InternalError"

/-- Insertion into the association-list model of `HashMap<String, f64>`:
replaces the value if the key is present, appends otherwise.  Keys stay
unique, so the list length is the entry count of the hash map. -/
def assocInsert : List (String × F64) → String → F64 → List (String × F64)
  | [], k, v => [(k, v)]
  | (k1, v1) :: tl, k, v => if k1 = k then (k, v) :: tl else (k1, v1) :: assocInsert tl k v

/-- Lookup in the association-list model of the output map. -/
def assocLookup : List (String × F64) → String → Option F64
  | [], _ => none
  | (k1, v1) :: tl, k => if k1 = k then some v1 else assocLookup tl k

/-- The serializer state (`struct Serializer`, `ser.rs` lines 6-11):
sequence counter, path stack (`Vec<String>`, top of the Vec at the head of
the list) and the output map. -/
structure Serializer where
  counter : Nat
  pos : List String
  output : List (String × F64)
deriving DecidableEq, Repr

/-- `Serializer::new` (`ser.rs` lines 14-20): counter 0, path stack seeded
with the root marker, empty output. -/
def Serializer.new (root : String) : Serializer :=
  { counter := 0, pos := [root], output := [] }

/-- `Serializer::is_root` (`ser.rs` lines 22-24): tests `pos.len() == 0`. -/
def Serializer.is_root (s : Serializer) : Bool := s.pos.length == 0

/-- `Serializer::push_key` (`ser.rs` lines 26-34): push the top path
extended with `"." + key` (just `key` if the stack is empty). -/
def Serializer.push_key (s : Serializer) (key : String) : Serializer :=
  match s.pos with
  | [] => { s with pos := [key] }
  | top :: _ => { s with pos := (top ++ "." ++ key) :: s.pos }

/-- `Serializer::push_index` (`ser.rs` lines 36-44): push the top path
extended with `"[i]"` (just `"[i]"` if the stack is empty). -/
def Serializer.push_index (s : Serializer) (i : Int) : Serializer :=
  match s.pos with
  | [] => { s with pos := ["[" ++ toString i ++ "]"] }
  | top :: _ => { s with pos := (top ++ "[" ++ toString i ++ "]") :: s.pos }

/-- `Serializer::pop` (`ser.rs` lines 46-48).  `Vec::pop` on an empty vector
does nothing, matching `List.tail` on `[]`. -/
def Serializer.pop (s : Serializer) : Serializer := { s with pos := s.pos.tail }

/-- `self.counter += 1` on the serializer state. -/
def Serializer.incCounter (s : Serializer) : Serializer := { s with counter := s.counter + 1 }

/-- `self.counter = 0` on the serializer state (the `end` handlers). -/
def Serializer.resetCounter (s : Serializer) : Serializer := { s with counter := 0 }

/-- Outcome of a serialization step: success, error (state kept, as the Rust
serializer is mutated through a `&mut` borrow), or failure of the
`assert_ne!` in `Serializer::insert`. -/
inductive SRes where
  | ok : Serializer → SRes
  | err : Serializer → Error → SRes
  | assertFail : Serializer → SRes
deriving DecidableEq, Repr

/-- Sequencing of fallible steps: the `?` operator of the Rust code. -/
def SRes.andThen (r : SRes) (f : Serializer → SRes) : SRes :=
  match r with
  | .ok s => f s
  | .err s e => .err s e
  | .assertFail s => .assertFail s

/-- Length of the path stack carried by an outcome, in every case. -/
def SRes.posLen : SRes → Nat
  | .ok s => s.pos.length
  | .err s _ => s.pos.length
  | .assertFail s => s.pos.length

/-- True exactly on the `assertFail` outcome. -/
def SRes.isAssertFail : SRes → Bool
  | .assertFail _ => true
  | _ => false

/-- Lookup a path in the output map of a successful outcome. -/
def SRes.lookupAt (r : SRes) (k : String) : Option F64 :=
  match r with
  | .ok s => assocLookup s.output k
  | _ => none

/-- `Serializer::insert` (`ser.rs` lines 50-54): asserts the path stack is
non-empty (modelled as the `assertFail` outcome) and writes `value` into
the output at the top path. -/
def Serializer.insert (s : Serializer) (v : F64) : SRes :=
  match s.pos with
  | [] => .assertFail s
  | top :: _ => .ok { s with output := assocInsert s.output top v }

mutual
/-- The serde data model as presented to this serializer by the dispatcher.
Integer widths collapse exactly as the code collapses them:
`serialize_i8/i16/i32` widen into `serialize_i64` and
`serialize_u8/u16/u32` widen into `serialize_u64`, and `serialize_f32`
widens into `serialize_f64`, so one constructor per funnel suffices.
Variant constructors carry the `variant_index` (`u32`, modelled as `Nat`);
the `name` and `variant` string parameters the code receives and ignores
are carried where the signatures carry them. -/
inductive Value where
  | vbool (b : Bool)
  | vi64 (n : Int)
  | vu64 (n : Nat)
  | vf64 (x : F64)
  | vchar (c : Char)
  | vstr (sv : String)
  | vbytes (bs : List Nat)
  | vnone
  | vsome (v : Value)
  | vunit
  | vunitStruct (name : String)
  | vunitVariant (name : String) (idx : Nat) (variant : String)
  | vnewtypeStruct (name : String) (v : Value)
  | vnewtypeVariant (name : String) (idx : Nat) (variant : String) (v : Value)
  | vseq (vs : ValueList)
  | vtuple (vs : ValueList)
  | vtupleStruct (name : String) (vs : ValueList)
  | vtupleVariant (name : String) (idx : Nat) (variant : String) (vs : ValueList)
  | vmap (es : EntryList)
  | vstruct (name : String) (fs : FieldList)
  | vstructVariant (name : String) (idx : Nat) (variant : String) (fs : FieldList)
inductive ValueList where
  | nil
  | cons (v : Value) (tl : ValueList)
inductive FieldList where
  | fnil
  | fcons (key : String) (v : Value) (tl : FieldList)
inductive EntryList where
  | enil
  | econs (k : Value) (v : Value) (tl : EntryList)
end

/-- The restricted key serializer `StringExtractor` (`ser.rs` lines 512-672):
`serialize_str` returns the string, `serialize_newtype_struct` transparently
re-dispatches the wrapped value, and every other node kind returns
`Error::KeyNotString`. -/
def string_extract : Value → Except Error String
  | .vstr sv => .ok sv
  | .vnewtypeStruct _ v => string_extract v
  | _ => .error .KeyNotString

mutual
/-- One traversal step of `impl ser::Serializer for &mut Serializer`
(`ser.rs` lines 71-316), with the dispatcher protocol for compound kinds
(begin, elements or fields, end) inlined per constructor:
- `serialize_bool` writes 1.0 or 0.0 through `serialize_f64`;
- `serialize_i8..i64` and `serialize_u8..u64` widen and write through
  `serialize_f64`; `serialize_f32/f64` write the value; all of these are
  `Serializer.insert`;
- `serialize_char`, `serialize_str`, `serialize_bytes` return
  `Error::Unsupported`;
- `serialize_none` and `serialize_unit_struct` delegate to `serialize_unit`,
  which writes `f64::NAN`;
- `serialize_some` and `serialize_newtype_struct` serialize the inner value
  with the same state;
- `serialize_unit_variant` writes the variant index via `serialize_u32`;
- `serialize_newtype_variant` writes the index, pushes `[0]`, serializes the
  payload (the `?` skips the pop on error) and pops;
- `serialize_seq`, `serialize_tuple`, `serialize_tuple_struct` return the
  serializer unchanged, then the element calls run, then `end` resets the
  counter; `serialize_tuple_variant` first writes the index;
- `serialize_map` returns the serializer unchanged, then the entry calls
  run (`end` is a no-op);
- `serialize_struct` returns the serializer unchanged, then the field calls
  run (`end` is a no-op); `serialize_struct_variant` first pushes the `"_"`
  segment when `is_root()` holds, then writes the index. -/
def serializeValue : Value → Serializer → SRes
  | .vbool b, s => s.insert (if b then .num 1 else .num 0)
  | .vi64 n, s => s.insert (.ofInt n)
  | .vu64 n, s => s.insert (.ofNat n)
  | .vf64 x, s => s.insert x
  | .vchar _, s => .err s .Unsupported
  | .vstr _, s => .err s .Unsupported
  | .vbytes _, s => .err s .Unsupported
  | .vnone, s => s.insert .nan
  | .vsome v, s => serializeValue v s
  | .vunit, s => s.insert .nan
  | .vunitStruct _, s => s.insert .nan
  | .vunitVariant _ idx _, s => s.insert (.ofNat idx)
  | .vnewtypeStruct _ v, s => serializeValue v s
  | .vnewtypeVariant _ idx _ v, s =>
    (s.insert (.ofNat idx)).andThen fun s1 =>
      (serializeValue v (s1.push_index 0)).andThen fun s2 => .ok s2.pop
  | .vseq vs, s => (serializeElems vs s).andThen fun s1 => .ok s1.resetCounter
  | .vtuple vs, s => (serializeElems vs s).andThen fun s1 => .ok s1.resetCounter
  | .vtupleStruct _ vs, s => (serializeElems vs s).andThen fun s1 => .ok s1.resetCounter
  | .vtupleVariant _ idx _ vs, s =>
    (s.insert (.ofNat idx)).andThen fun s1 =>
      (serializeElems vs s1).andThen fun s2 => .ok s2.resetCounter
  | .vmap es, s => serializeEntries es s
  | .vstruct _ fs, s => serializeFields fs s
  | .vstructVariant _ idx _ fs, s =>
    ((if s.is_root then s.push_key "_" else s).insert (.ofNat idx)).andThen fun s1 =>
      serializeFields fs s1
/-- The element handlers of `SerializeSeq`, `SerializeTuple`,
`SerializeTupleStruct` and `SerializeTupleVariant` (`ser.rs` lines 325-422),
whose bodies are identical: push `[counter]` (cast `as i32`), increment the
counter, serialize the element (the `?` skips the pop on error), pop. -/
def serializeElems : ValueList → Serializer → SRes
  | .nil, s => .ok s
  | .cons v tl, s =>
    (serializeValue v ((s.push_index (Int.ofNat s.counter)).incCounter)).andThen fun s1 =>
      serializeElems tl s1.pop
/-- The field handlers of `SerializeStruct` and `SerializeStructVariant`
(`ser.rs` lines 472-510), whose bodies are identical: push `"." + key`,
serialize the field value (the `?` skips the pop on error), pop. -/
def serializeFields : FieldList → Serializer → SRes
  | .fnil, s => .ok s
  | .fcons key v tl, s =>
    (serializeValue v (s.push_key key)).andThen fun s1 =>
      serializeFields tl s1.pop
/-- The entry handlers of `SerializeMap` (`ser.rs` lines 432-468):
`serialize_key` runs the key through `StringExtractor` (aborting with its
error, pushing nothing) and pushes the resulting key; `serialize_value`
serializes the value (the `?` skips the pop on error) and pops. -/
def serializeEntries : EntryList → Serializer → SRes
  | .enil, s => .ok s
  | .econs k v tl, s =>
    match string_extract k with
    | .error e => .err s e
    | .ok key =>
      (serializeValue v (s.push_key key)).andThen fun s1 =>
        serializeEntries tl s1.pop
end

/-- Observable outcome of the public entry point: the finished map, the
first error, or a panic of the assertion in `Serializer::insert`. -/
inductive SerOutcome where
  | ok : List (String × F64) → SerOutcome
  | error : Error → SerOutcome
  | panicked : SerOutcome
deriving DecidableEq, Repr

/-- True exactly on the successful outcome. -/
def SerOutcome.isOk : SerOutcome → Bool
  | .ok _ => true
  | _ => false

/-- The public entry point `to_hashmap` (`ser.rs` lines 62-69): build
`Serializer::new("$")`, serialize the value into it, return the output map
on success and the error otherwise. -/
def to_hashmap (v : Value) : SerOutcome :=
  match serializeValue v (Serializer.new "$") with
  | .ok s => .ok s.output
  | .err _ e => .error e
  | .assertFail _ => .panicked


theorem SRes.andThen_ok {r : SRes} {f : Serializer → SRes} {s2 : Serializer} :
    r.andThen f = .ok s2 ↔ ∃ s1, r = .ok s1 ∧ f s1 = .ok s2 := by
  cases r <;> simp [SRes.andThen]

theorem SRes.andThen_err {r : SRes} {f : Serializer → SRes} {s2 : Serializer} {e : Error} :
    r.andThen f = .err s2 e ↔ r = .err s2 e ∨ ∃ s1, r = .ok s1 ∧ f s1 = .err s2 e := by
  cases r <;> simp [SRes.andThen]

theorem SRes.andThen_noFail {r : SRes} {f : Serializer → SRes} :
    (r.andThen f).isAssertFail = false ↔
      r.isAssertFail = false ∧ ∀ s1, r = .ok s1 → (f s1).isAssertFail = false := by
  cases r <;> simp [SRes.andThen, SRes.isAssertFail]

theorem Serializer.push_key_ne_nil (s : Serializer) (k : String) :
    (s.push_key k).pos ≠ [] := by
  cases h : s.pos <;> simp [Serializer.push_key, h]

theorem Serializer.push_index_ne_nil (s : Serializer) (i : Int) :
    (s.push_index i).pos ≠ [] := by
  cases h : s.pos <;> simp [Serializer.push_index, h]

theorem Serializer.push_key_tail (s : Serializer) (k : String) :
    (s.push_key k).pos.tail = s.pos := by
  cases h : s.pos <;> simp [Serializer.push_key, h]

theorem Serializer.push_index_tail (s : Serializer) (i : Int) :
    (s.push_index i).pos.tail = s.pos := by
  cases h : s.pos <;> simp [Serializer.push_index, h]

theorem Serializer.incCounter_pos (s : Serializer) : s.incCounter.pos = s.pos := rfl

theorem Serializer.pop_pos (s : Serializer) : s.pop.pos = s.pos.tail := rfl

theorem Serializer.insert_ok_pos {s : Serializer} {v : F64} {s1 : Serializer}
    (h : s.insert v = .ok s1) : s1.pos = s.pos := by
  cases hp : s.pos <;> rw [Serializer.insert, hp] at h
  · simp at h
  · simp at h; simp [← h, hp]

theorem Serializer.insert_noFail {s : Serializer} {v : F64} (h : s.pos ≠ []) :
    (s.insert v).isAssertFail = false := by
  cases hp : s.pos <;> rw [Serializer.insert, hp]
  · exact absurd hp h
  · simp [SRes.isAssertFail]

theorem Serializer.insert_ne_err {s : Serializer} {v : F64} {s1 : Serializer} {e : Error} :
    s.insert v ≠ .err s1 e := by
  cases hp : s.pos <;> rw [Serializer.insert, hp] <;> simp

theorem Serializer.insert_ok_exists {s : Serializer} {v : F64} (h : s.pos ≠ []) :
    ∃ s1, s.insert v = .ok s1 := by
  cases hp : s.pos <;> rw [Serializer.insert, hp]
  · exact absurd hp h
  · simp

theorem Serializer.is_root_false {s : Serializer} (h : s.pos ≠ []) :
    s.is_root = false := by
  cases hp : s.pos
  · exact absurd hp h
  · simp [Serializer.is_root, hp]

mutual
theorem serializeValue_ok_pos (v : Value) (s s1 : Serializer) (hne : s.pos ≠ [])
    (h : serializeValue v s = .ok s1) : s1.pos = s.pos := by
  cases v with
  | vbool b => exact Serializer.insert_ok_pos h
  | vi64 n => exact Serializer.insert_ok_pos h
  | vu64 n => exact Serializer.insert_ok_pos h
  | vf64 x => exact Serializer.insert_ok_pos h
  | vchar c => simp [serializeValue] at h
  | vstr sv => simp [serializeValue] at h
  | vbytes bs => simp [serializeValue] at h
  | vnone => exact Serializer.insert_ok_pos h
  | vsome v => exact serializeValue_ok_pos v s s1 hne h
  | vunit => exact Serializer.insert_ok_pos h
  | vunitStruct name => exact Serializer.insert_ok_pos h
  | vunitVariant name idx variant => exact Serializer.insert_ok_pos h
  | vnewtypeStruct name v => exact serializeValue_ok_pos v s s1 hne h
  | vnewtypeVariant name idx variant v =>
    rw [serializeValue, SRes.andThen_ok] at h
    obtain ⟨sa, ha, h⟩ := h
    rw [SRes.andThen_ok] at h
    obtain ⟨sb, hb, h⟩ := h
    simp only [SRes.ok.injEq] at h
    have h1 := serializeValue_ok_pos v _ _ (Serializer.push_index_ne_nil sa 0) hb
    rw [← h, Serializer.pop_pos, h1, Serializer.push_index_tail]
    exact Serializer.insert_ok_pos ha
  | vseq vs =>
    rw [serializeValue, SRes.andThen_ok] at h
    obtain ⟨sa, ha, h⟩ := h
    simp only [SRes.ok.injEq] at h
    rw [← h]
    exact serializeElems_ok_pos vs s sa hne ha
  | vtuple vs =>
    rw [serializeValue, SRes.andThen_ok] at h
    obtain ⟨sa, ha, h⟩ := h
    simp only [SRes.ok.injEq] at h
    rw [← h]
    exact serializeElems_ok_pos vs s sa hne ha
  | vtupleStruct name vs =>
    rw [serializeValue, SRes.andThen_ok] at h
    obtain ⟨sa, ha, h⟩ := h
    simp only [SRes.ok.injEq] at h
    rw [← h]
    exact serializeElems_ok_pos vs s sa hne ha
  | vtupleVariant name idx variant vs =>
    rw [serializeValue, SRes.andThen_ok] at h
    obtain ⟨sa, ha, h⟩ := h
    rw [SRes.andThen_ok] at h
    obtain ⟨sb, hb, h⟩ := h
    simp only [SRes.ok.injEq] at h
    rw [← h]
    have h2 := Serializer.insert_ok_pos ha
    have h1 := serializeElems_ok_pos vs sa sb (by rw [h2]; exact hne) hb
    rw [Serializer.resetCounter, h1, h2]
  | vmap es => exact serializeEntries_ok_pos es s s1 hne h
  | vstruct name fs => exact serializeFields_ok_pos fs s s1 hne h
  | vstructVariant name idx variant fs =>
    rw [serializeValue, SRes.andThen_ok] at h
    obtain ⟨sa, ha, h⟩ := h
    rw [Serializer.is_root_false hne] at ha
    simp only [Bool.false_eq_true, if_false] at ha
    have h2 := Serializer.insert_ok_pos ha
    have h1 := serializeFields_ok_pos fs sa s1 (by rw [h2]; exact hne) h
    rw [h1, h2]
theorem serializeElems_ok_pos (vs : ValueList) (s s1 : Serializer) (hne : s.pos ≠ [])
    (h : serializeElems vs s = .ok s1) : s1.pos = s.pos := by
  cases vs with
  | nil => rw [serializeElems] at h; simp at h; rw [← h]
  | cons v tl =>
    rw [serializeElems, SRes.andThen_ok] at h
    obtain ⟨sa, ha, h⟩ := h
    have h1 := serializeValue_ok_pos v _ _
      (by rw [Serializer.incCounter_pos]; exact Serializer.push_index_ne_nil s (Int.ofNat s.counter)) ha
    have hpop : sa.pop.pos = s.pos := by
      rw [Serializer.pop_pos, h1, Serializer.incCounter_pos, Serializer.push_index_tail]
    have h2 := serializeElems_ok_pos tl _ _ (by rw [hpop]; exact hne) h
    rw [h2, hpop]
theorem serializeFields_ok_pos (fs : FieldList) (s s1 : Serializer) (hne : s.pos ≠ [])
    (h : serializeFields fs s = .ok s1) : s1.pos = s.pos := by
  cases fs with
  | fnil => rw [serializeFields] at h; simp at h; rw [← h]
  | fcons key v tl =>
    rw [serializeFields, SRes.andThen_ok] at h
    obtain ⟨sa, ha, h⟩ := h
    have h1 := serializeValue_ok_pos v _ _ (Serializer.push_key_ne_nil s key) ha
    have hpop : sa.pop.pos = s.pos := by
      rw [Serializer.pop_pos, h1, Serializer.push_key_tail]
    have h2 := serializeFields_ok_pos tl _ _ (by rw [hpop]; exact hne) h
    rw [h2, hpop]
theorem serializeEntries_ok_pos (es : EntryList) (s s1 : Serializer) (hne : s.pos ≠ [])
    (h : serializeEntries es s = .ok s1) : s1.pos = s.pos := by
  cases es with
  | enil => rw [serializeEntries] at h; simp at h; rw [← h]
  | econs k v tl =>
    rw [serializeEntries] at h
    cases hk : string_extract k with
    | error e => rw [hk] at h; simp at h
    | ok key =>
      rw [hk] at h
      rw [SRes.andThen_ok] at h
      obtain ⟨sa, ha, h⟩ := h
      have h1 := serializeValue_ok_pos v _ _ (Serializer.push_key_ne_nil s key) ha
      have hpop : sa.pop.pos = s.pos := by
        rw [Serializer.pop_pos, h1, Serializer.push_key_tail]
      have h2 := serializeEntries_ok_pos tl _ _ (by rw [hpop]; exact hne) h
      rw [h2, hpop]
end

mutual
theorem serializeValue_noFail (v : Value) (s : Serializer) (hne : s.pos ≠ []) :
    (serializeValue v s).isAssertFail = false := by
  cases v with
  | vbool b => rw [serializeValue]; exact Serializer.insert_noFail hne
  | vi64 n => rw [serializeValue]; exact Serializer.insert_noFail hne
  | vu64 n => rw [serializeValue]; exact Serializer.insert_noFail hne
  | vf64 x => rw [serializeValue]; exact Serializer.insert_noFail hne
  | vchar c => rw [serializeValue]; rfl
  | vstr sv => rw [serializeValue]; rfl
  | vbytes bs => rw [serializeValue]; rfl
  | vnone => rw [serializeValue]; exact Serializer.insert_noFail hne
  | vsome v => rw [serializeValue]; exact serializeValue_noFail v s hne
  | vunit => rw [serializeValue]; exact Serializer.insert_noFail hne
  | vunitStruct name => rw [serializeValue]; exact Serializer.insert_noFail hne
  | vunitVariant name idx variant => rw [serializeValue]; exact Serializer.insert_noFail hne
  | vnewtypeStruct name v => rw [serializeValue]; exact serializeValue_noFail v s hne
  | vnewtypeVariant name idx variant v =>
    rw [serializeValue, SRes.andThen_noFail]
    refine ⟨Serializer.insert_noFail hne, fun s1 h1 => ?_⟩
    rw [SRes.andThen_noFail]
    exact ⟨serializeValue_noFail v _ (Serializer.push_index_ne_nil s1 0), fun s2 h2 => rfl⟩
  | vseq vs =>
    rw [serializeValue, SRes.andThen_noFail]
    exact ⟨serializeElems_noFail vs s hne, fun s1 h1 => rfl⟩
  | vtuple vs =>
    rw [serializeValue, SRes.andThen_noFail]
    exact ⟨serializeElems_noFail vs s hne, fun s1 h1 => rfl⟩
  | vtupleStruct name vs =>
    rw [serializeValue, SRes.andThen_noFail]
    exact ⟨serializeElems_noFail vs s hne, fun s1 h1 => rfl⟩
  | vtupleVariant name idx variant vs =>
    rw [serializeValue, SRes.andThen_noFail]
    refine ⟨Serializer.insert_noFail hne, fun s1 h1 => ?_⟩
    rw [SRes.andThen_noFail]
    have hp1 : s1.pos ≠ [] := by rw [Serializer.insert_ok_pos h1]; exact hne
    exact ⟨serializeElems_noFail vs s1 hp1, fun s2 h2 => rfl⟩
  | vmap es => rw [serializeValue]; exact serializeEntries_noFail es s hne
  | vstruct name fs => rw [serializeValue]; exact serializeFields_noFail fs s hne
  | vstructVariant name idx variant fs =>
    rw [serializeValue, Serializer.is_root_false hne]
    simp only [Bool.false_eq_true, if_false]
    rw [SRes.andThen_noFail]
    refine ⟨Serializer.insert_noFail hne, fun s1 h1 => ?_⟩
    have hp1 : s1.pos ≠ [] := by rw [Serializer.insert_ok_pos h1]; exact hne
    exact serializeFields_noFail fs s1 hp1
theorem serializeElems_noFail (vs : ValueList) (s : Serializer) (hne : s.pos ≠ []) :
    (serializeElems vs s).isAssertFail = false := by
  cases vs with
  | nil => rw [serializeElems]; rfl
  | cons v tl =>
    rw [serializeElems, SRes.andThen_noFail]
    have hp : ((s.push_index (Int.ofNat s.counter)).incCounter).pos ≠ [] := by
      rw [Serializer.incCounter_pos]; exact Serializer.push_index_ne_nil s (Int.ofNat s.counter)
    refine ⟨serializeValue_noFail v _ hp, fun s1 h1 => ?_⟩
    have hpop : s1.pop.pos = s.pos := by
      rw [Serializer.pop_pos, serializeValue_ok_pos v _ _ hp h1, Serializer.incCounter_pos,
        Serializer.push_index_tail]
    exact serializeElems_noFail tl s1.pop (by rw [hpop]; exact hne)
theorem serializeFields_noFail (fs : FieldList) (s : Serializer) (hne : s.pos ≠ []) :
    (serializeFields fs s).isAssertFail = false := by
  cases fs with
  | fnil => rw [serializeFields]; rfl
  | fcons key v tl =>
    rw [serializeFields, SRes.andThen_noFail]
    refine ⟨serializeValue_noFail v _ (Serializer.push_key_ne_nil s key), fun s1 h1 => ?_⟩
    have hpop : s1.pop.pos = s.pos := by
      rw [Serializer.pop_pos, serializeValue_ok_pos v _ _ (Serializer.push_key_ne_nil s key) h1,
        Serializer.push_key_tail]
    exact serializeFields_noFail tl s1.pop (by rw [hpop]; exact hne)
theorem serializeEntries_noFail (es : EntryList) (s : Serializer) (hne : s.pos ≠ []) :
    (serializeEntries es s).isAssertFail = false := by
  cases es with
  | enil => rw [serializeEntries]; rfl
  | econs k v tl =>
    rw [serializeEntries]
    cases hk : string_extract k with
    | error e => rfl
    | ok key =>
      show ((serializeValue v (s.push_key key)).andThen
        fun s1 => serializeEntries tl s1.pop).isAssertFail = false
      rw [SRes.andThen_noFail]
      refine ⟨serializeValue_noFail v _ (Serializer.push_key_ne_nil s key), fun s1 h1 => ?_⟩
      have hpop : s1.pop.pos = s.pos := by
        rw [Serializer.pop_pos, serializeValue_ok_pos v _ _ (Serializer.push_key_ne_nil s key) h1,
          Serializer.push_key_tail]
      exact serializeEntries_noFail tl s1.pop (by rw [hpop]; exact hne)
end

theorem string_extract_err (k : Value) (e : Error) (h : string_extract k = .error e) :
    e = .KeyNotString := by
  cases k
  case vnewtypeStruct name v =>
    exact string_extract_err v e (by simpa [string_extract] using h)
  all_goals simp_all [string_extract]

mutual
theorem serializeValue_err (v : Value) (s s1 : Serializer) (e : Error)
    (h : serializeValue v s = .err s1 e) : e = .Unsupported ∨ e = .KeyNotString := by
  cases v with
  | vbool b => exact absurd h Serializer.insert_ne_err
  | vi64 n => exact absurd h Serializer.insert_ne_err
  | vu64 n => exact absurd h Serializer.insert_ne_err
  | vf64 x => exact absurd h Serializer.insert_ne_err
  | vchar c =>
    rw [serializeValue] at h
    injection h with h1 h2
    exact Or.inl h2.symm
  | vstr sv =>
    rw [serializeValue] at h
    injection h with h1 h2
    exact Or.inl h2.symm
  | vbytes bs =>
    rw [serializeValue] at h
    injection h with h1 h2
    exact Or.inl h2.symm
  | vnone => exact absurd h Serializer.insert_ne_err
  | vsome v => exact serializeValue_err v s s1 e h
  | vunit => exact absurd h Serializer.insert_ne_err
  | vunitStruct name => exact absurd h Serializer.insert_ne_err
  | vunitVariant name idx variant => exact absurd h Serializer.insert_ne_err
  | vnewtypeStruct name v => exact serializeValue_err v s s1 e h
  | vnewtypeVariant name idx variant v =>
    rw [serializeValue, SRes.andThen_err] at h
    rcases h with h | ⟨sa, ha, h⟩
    · exact absurd h Serializer.insert_ne_err
    · rw [SRes.andThen_err] at h
      rcases h with h | ⟨sb, hb, h⟩
      · exact serializeValue_err v _ s1 e h
      · simp at h
  | vseq vs =>
    rw [serializeValue, SRes.andThen_err] at h
    rcases h with h | ⟨sa, ha, h⟩
    · exact serializeElems_err vs s s1 e h
    · simp at h
  | vtuple vs =>
    rw [serializeValue, SRes.andThen_err] at h
    rcases h with h | ⟨sa, ha, h⟩
    · exact serializeElems_err vs s s1 e h
    · simp at h
  | vtupleStruct name vs =>
    rw [serializeValue, SRes.andThen_err] at h
    rcases h with h | ⟨sa, ha, h⟩
    · exact serializeElems_err vs s s1 e h
    · simp at h
  | vtupleVariant name idx variant vs =>
    rw [serializeValue, SRes.andThen_err] at h
    rcases h with h | ⟨sa, ha, h⟩
    · exact absurd h Serializer.insert_ne_err
    · rw [SRes.andThen_err] at h
      rcases h with h | ⟨sb, hb, h⟩
      · exact serializeElems_err vs _ s1 e h
      · simp at h
  | vmap es => exact serializeEntries_err es s s1 e h
  | vstruct name fs => exact serializeFields_err fs s s1 e h
  | vstructVariant name idx variant fs =>
    rw [serializeValue, SRes.andThen_err] at h
    rcases h with h | ⟨sa, ha, h⟩
    · exact absurd h Serializer.insert_ne_err
    · exact serializeFields_err fs _ s1 e h
theorem serializeElems_err (vs : ValueList) (s s1 : Serializer) (e : Error)
    (h : serializeElems vs s = .err s1 e) : e = .Unsupported ∨ e = .KeyNotString := by
  cases vs with
  | nil => rw [serializeElems] at h; simp at h
  | cons v tl =>
    rw [serializeElems, SRes.andThen_err] at h
    rcases h with h | ⟨sa, ha, h⟩
    · exact serializeValue_err v _ s1 e h
    · exact serializeElems_err tl _ s1 e h
theorem serializeFields_err (fs : FieldList) (s s1 : Serializer) (e : Error)
    (h : serializeFields fs s = .err s1 e) : e = .Unsupported ∨ e = .KeyNotString := by
  cases fs with
  | fnil => rw [serializeFields] at h; simp at h
  | fcons key v tl =>
    rw [serializeFields, SRes.andThen_err] at h
    rcases h with h | ⟨sa, ha, h⟩
    · exact serializeValue_err v _ s1 e h
    · exact serializeFields_err tl _ s1 e h
theorem serializeEntries_err (es : EntryList) (s s1 : Serializer) (e : Error)
    (h : serializeEntries es s = .err s1 e) : e = .Unsupported ∨ e = .KeyNotString := by
  cases es with
  | enil => rw [serializeEntries] at h; simp at h
  | econs k v tl =>
    rw [serializeEntries] at h
    cases hk : string_extract k with
    | error e0 =>
      rw [hk] at h
      have h2 : SRes.err s e0 = SRes.err s1 e := h
      injection h2 with h3 h4
      exact Or.inr (h4 ▸ string_extract_err k e0 hk)
    | ok key =>
      rw [hk] at h
      have h2 : ((serializeValue v (s.push_key key)).andThen
        fun sx => serializeEntries tl sx.pop) = .err s1 e := h
      rw [SRes.andThen_err] at h2
      rcases h2 with h2 | ⟨sa, ha, h2⟩
      · exact serializeValue_err v _ s1 e h2
      · exact serializeEntries_err tl _ s1 e h2
end

mutual
/-- A value built solely from booleans, integers, floats, optionals, unit
leaves, unit structs and variants, combined through records (structs),
sequences, tuples, tuple structs, newtype wrappers and the four enum
variant kinds.  Maps and text, character and byte leaves are excluded. -/
def numericOnly : Value → Bool
  | .vbool _ => true
  | .vi64 _ => true
  | .vu64 _ => true
  | .vf64 _ => true
  | .vchar _ => false
  | .vstr _ => false
  | .vbytes _ => false
  | .vnone => true
  | .vsome v => numericOnly v
  | .vunit => true
  | .vunitStruct _ => true
  | .vunitVariant _ _ _ => true
  | .vnewtypeStruct _ v => numericOnly v
  | .vnewtypeVariant _ _ _ v => numericOnly v
  | .vseq vs => numericOnlyList vs
  | .vtuple vs => numericOnlyList vs
  | .vtupleStruct _ vs => numericOnlyList vs
  | .vtupleVariant _ _ _ vs => numericOnlyList vs
  | .vmap _ => false
  | .vstruct _ fs => numericOnlyFields fs
  | .vstructVariant _ _ _ fs => numericOnlyFields fs
def numericOnlyList : ValueList → Bool
  | .nil => true
  | .cons v tl => numericOnly v && numericOnlyList tl
def numericOnlyFields : FieldList → Bool
  | .fnil => true
  | .fcons _ v tl => numericOnly v && numericOnlyFields tl
end

mutual
/-- A text, character or raw-byte leaf occurs somewhere in the value, in a
value position (the key side of map entries is not searched). -/
def hasTextLeaf : Value → Bool
  | .vchar _ => true
  | .vstr _ => true
  | .vbytes _ => true
  | .vsome v => hasTextLeaf v
  | .vnewtypeStruct _ v => hasTextLeaf v
  | .vnewtypeVariant _ _ _ v => hasTextLeaf v
  | .vseq vs => hasTextLeafList vs
  | .vtuple vs => hasTextLeafList vs
  | .vtupleStruct _ vs => hasTextLeafList vs
  | .vtupleVariant _ _ _ vs => hasTextLeafList vs
  | .vmap es => hasTextLeafEntries es
  | .vstruct _ fs => hasTextLeafFields fs
  | .vstructVariant _ _ _ fs => hasTextLeafFields fs
  | _ => false
def hasTextLeafList : ValueList → Bool
  | .nil => false
  | .cons v tl => hasTextLeaf v || hasTextLeafList tl
def hasTextLeafFields : FieldList → Bool
  | .fnil => false
  | .fcons _ v tl => hasTextLeaf v || hasTextLeafFields tl
def hasTextLeafEntries : EntryList → Bool
  | .enil => false
  | .econs _ v tl => hasTextLeaf v || hasTextLeafEntries tl
end

mutual
theorem serializeValue_numericOnly_ok (v : Value) (s : Serializer) (hne : s.pos ≠ [])
    (hn : numericOnly v = true) : ∃ s1, serializeValue v s = .ok s1 := by
  cases v with
  | vbool b => rw [serializeValue]; exact Serializer.insert_ok_exists hne
  | vi64 n => rw [serializeValue]; exact Serializer.insert_ok_exists hne
  | vu64 n => rw [serializeValue]; exact Serializer.insert_ok_exists hne
  | vf64 x => rw [serializeValue]; exact Serializer.insert_ok_exists hne
  | vchar c => simp [numericOnly] at hn
  | vstr sv => simp [numericOnly] at hn
  | vbytes bs => simp [numericOnly] at hn
  | vnone => rw [serializeValue]; exact Serializer.insert_ok_exists hne
  | vsome v =>
    rw [serializeValue]
    exact serializeValue_numericOnly_ok v s hne (by rwa [numericOnly] at hn)
  | vunit => rw [serializeValue]; exact Serializer.insert_ok_exists hne
  | vunitStruct name => rw [serializeValue]; exact Serializer.insert_ok_exists hne
  | vunitVariant name idx variant => rw [serializeValue]; exact Serializer.insert_ok_exists hne
  | vnewtypeStruct name v =>
    rw [serializeValue]
    exact serializeValue_numericOnly_ok v s hne (by rwa [numericOnly] at hn)
  | vnewtypeVariant name idx variant v =>
    rw [numericOnly] at hn
    obtain ⟨sa, ha⟩ := Serializer.insert_ok_exists (v := F64.ofNat idx) hne
    obtain ⟨sb, hb⟩ := serializeValue_numericOnly_ok v (sa.push_index 0)
      (Serializer.push_index_ne_nil sa 0) hn
    refine ⟨sb.pop, ?_⟩
    rw [serializeValue, ha, SRes.andThen, hb, SRes.andThen]
  | vseq vs =>
    rw [numericOnly] at hn
    obtain ⟨sa, ha⟩ := serializeElems_numericOnly_ok vs s hne hn
    exact ⟨sa.resetCounter, by rw [serializeValue, ha, SRes.andThen]⟩
  | vtuple vs =>
    rw [numericOnly] at hn
    obtain ⟨sa, ha⟩ := serializeElems_numericOnly_ok vs s hne hn
    exact ⟨sa.resetCounter, by rw [serializeValue, ha, SRes.andThen]⟩
  | vtupleStruct name vs =>
    rw [numericOnly] at hn
    obtain ⟨sa, ha⟩ := serializeElems_numericOnly_ok vs s hne hn
    exact ⟨sa.resetCounter, by rw [serializeValue, ha, SRes.andThen]⟩
  | vtupleVariant name idx variant vs =>
    rw [numericOnly] at hn
    obtain ⟨sa, ha⟩ := Serializer.insert_ok_exists (v := F64.ofNat idx) hne
    obtain ⟨sb, hb⟩ := serializeElems_numericOnly_ok vs sa
      (by rw [Serializer.insert_ok_pos ha]; exact hne) hn
    refine ⟨sb.resetCounter, ?_⟩
    rw [serializeValue, ha, SRes.andThen, hb, SRes.andThen]
  | vmap es => simp [numericOnly] at hn
  | vstruct name fs =>
    rw [serializeValue]
    exact serializeFields_numericOnly_ok fs s hne (by rwa [numericOnly] at hn)
  | vstructVariant name idx variant fs =>
    rw [numericOnly] at hn
    obtain ⟨sa, ha⟩ := Serializer.insert_ok_exists (v := F64.ofNat idx) hne
    obtain ⟨sb, hb⟩ := serializeFields_numericOnly_ok fs sa
      (by rw [Serializer.insert_ok_pos ha]; exact hne) hn
    refine ⟨sb, ?_⟩
    rw [serializeValue, Serializer.is_root_false hne]
    simp only [Bool.false_eq_true, if_false]
    rw [ha, SRes.andThen, hb]
theorem serializeElems_numericOnly_ok (vs : ValueList) (s : Serializer) (hne : s.pos ≠ [])
    (hn : numericOnlyList vs = true) : ∃ s1, serializeElems vs s = .ok s1 := by
  cases vs with
  | nil => exact ⟨s, by rw [serializeElems]⟩
  | cons v tl =>
    rw [numericOnlyList, Bool.and_eq_true] at hn
    have hp : ((s.push_index (Int.ofNat s.counter)).incCounter).pos ≠ [] := by
      rw [Serializer.incCounter_pos]; exact Serializer.push_index_ne_nil s (Int.ofNat s.counter)
    obtain ⟨sa, ha⟩ := serializeValue_numericOnly_ok v _ hp hn.1
    have hpop : sa.pop.pos = s.pos := by
      rw [Serializer.pop_pos, serializeValue_ok_pos v _ _ hp ha, Serializer.incCounter_pos,
        Serializer.push_index_tail]
    obtain ⟨sb, hb⟩ := serializeElems_numericOnly_ok tl sa.pop (by rw [hpop]; exact hne) hn.2
    exact ⟨sb, by rw [serializeElems, ha, SRes.andThen, hb]⟩
theorem serializeFields_numericOnly_ok (fs : FieldList) (s : Serializer) (hne : s.pos ≠ [])
    (hn : numericOnlyFields fs = true) : ∃ s1, serializeFields fs s = .ok s1 := by
  cases fs with
  | fnil => exact ⟨s, by rw [serializeFields]⟩
  | fcons key v tl =>
    rw [numericOnlyFields, Bool.and_eq_true] at hn
    obtain ⟨sa, ha⟩ := serializeValue_numericOnly_ok v _ (Serializer.push_key_ne_nil s key) hn.1
    have hpop : sa.pop.pos = s.pos := by
      rw [Serializer.pop_pos, serializeValue_ok_pos v _ _ (Serializer.push_key_ne_nil s key) ha,
        Serializer.push_key_tail]
    obtain ⟨sb, hb⟩ := serializeFields_numericOnly_ok tl sa.pop (by rw [hpop]; exact hne) hn.2
    exact ⟨sb, by rw [serializeFields, ha, SRes.andThen, hb]⟩
end

mutual
theorem serializeValue_textLeaf_err (v : Value) (s : Serializer) (hne : s.pos ≠ [])
    (ht : hasTextLeaf v = true) : ∃ s1 e, serializeValue v s = .err s1 e := by
  cases v with
  | vbool b => simp [hasTextLeaf] at ht
  | vi64 n => simp [hasTextLeaf] at ht
  | vu64 n => simp [hasTextLeaf] at ht
  | vf64 x => simp [hasTextLeaf] at ht
  | vchar c => exact ⟨s, .Unsupported, by rw [serializeValue]⟩
  | vstr sv => exact ⟨s, .Unsupported, by rw [serializeValue]⟩
  | vbytes bs => exact ⟨s, .Unsupported, by rw [serializeValue]⟩
  | vnone => simp [hasTextLeaf] at ht
  | vsome v =>
    rw [serializeValue]
    exact serializeValue_textLeaf_err v s hne (by rwa [hasTextLeaf] at ht)
  | vunit => simp [hasTextLeaf] at ht
  | vunitStruct name => simp [hasTextLeaf] at ht
  | vunitVariant name idx variant => simp [hasTextLeaf] at ht
  | vnewtypeStruct name v =>
    rw [serializeValue]
    exact serializeValue_textLeaf_err v s hne (by rwa [hasTextLeaf] at ht)
  | vnewtypeVariant name idx variant v =>
    rw [hasTextLeaf] at ht
    obtain ⟨sa, ha⟩ := Serializer.insert_ok_exists (v := F64.ofNat idx) hne
    obtain ⟨s1, e, h1⟩ := serializeValue_textLeaf_err v (sa.push_index 0)
      (Serializer.push_index_ne_nil sa 0) ht
    exact ⟨s1, e, by rw [serializeValue, ha, SRes.andThen, h1, SRes.andThen]⟩
  | vseq vs =>
    rw [hasTextLeaf] at ht
    obtain ⟨s1, e, h1⟩ := serializeElems_textLeaf_err vs s hne ht
    exact ⟨s1, e, by rw [serializeValue, h1, SRes.andThen]⟩
  | vtuple vs =>
    rw [hasTextLeaf] at ht
    obtain ⟨s1, e, h1⟩ := serializeElems_textLeaf_err vs s hne ht
    exact ⟨s1, e, by rw [serializeValue, h1, SRes.andThen]⟩
  | vtupleStruct name vs =>
    rw [hasTextLeaf] at ht
    obtain ⟨s1, e, h1⟩ := serializeElems_textLeaf_err vs s hne ht
    exact ⟨s1, e, by rw [serializeValue, h1, SRes.andThen]⟩
  | vtupleVariant name idx variant vs =>
    rw [hasTextLeaf] at ht
    obtain ⟨sa, ha⟩ := Serializer.insert_ok_exists (v := F64.ofNat idx) hne
    obtain ⟨s1, e, h1⟩ := serializeElems_textLeaf_err vs sa
      (by rw [Serializer.insert_ok_pos ha]; exact hne) ht
    exact ⟨s1, e, by rw [serializeValue, ha, SRes.andThen, h1, SRes.andThen]⟩
  | vmap es =>
    rw [hasTextLeaf] at ht
    exact serializeEntries_textLeaf_err es s hne ht
  | vstruct name fs =>
    rw [hasTextLeaf] at ht
    rw [serializeValue]
    exact serializeFields_textLeaf_err fs s hne ht
  | vstructVariant name idx variant fs =>
    rw [hasTextLeaf] at ht
    obtain ⟨sa, ha⟩ := Serializer.insert_ok_exists (v := F64.ofNat idx) hne
    obtain ⟨s1, e, h1⟩ := serializeFields_textLeaf_err fs sa
      (by rw [Serializer.insert_ok_pos ha]; exact hne) ht
    refine ⟨s1, e, ?_⟩
    rw [serializeValue, Serializer.is_root_false hne]
    simp only [Bool.false_eq_true, if_false]
    rw [ha, SRes.andThen, h1]
theorem serializeElems_textLeaf_err (vs : ValueList) (s : Serializer) (hne : s.pos ≠ [])
    (ht : hasTextLeafList vs = true) : ∃ s1 e, serializeElems vs s = .err s1 e := by
  cases vs with
  | nil => simp [hasTextLeafList] at ht
  | cons v tl =>
    rw [hasTextLeafList, Bool.or_eq_true] at ht
    have hp : ((s.push_index (Int.ofNat s.counter)).incCounter).pos ≠ [] := by
      rw [Serializer.incCounter_pos]; exact Serializer.push_index_ne_nil s (Int.ofNat s.counter)
    rcases ht with ht | ht
    · obtain ⟨s1, e, h1⟩ := serializeValue_textLeaf_err v _ hp ht
      exact ⟨s1, e, by rw [serializeElems, h1, SRes.andThen]⟩
    · cases hres : serializeValue v ((s.push_index (Int.ofNat s.counter)).incCounter) with
      | ok sa =>
        have hpop : sa.pop.pos = s.pos := by
          rw [Serializer.pop_pos, serializeValue_ok_pos v _ _ hp hres, Serializer.incCounter_pos,
            Serializer.push_index_tail]
        obtain ⟨s1, e, h1⟩ := serializeElems_textLeaf_err tl sa.pop (by rw [hpop]; exact hne) ht
        exact ⟨s1, e, by rw [serializeElems, hres, SRes.andThen, h1]⟩
      | err sa e => exact ⟨sa, e, by rw [serializeElems, hres, SRes.andThen]⟩
      | assertFail sa =>
        have hnf := serializeValue_noFail v _ hp
        rw [hres] at hnf
        simp [SRes.isAssertFail] at hnf
theorem serializeFields_textLeaf_err (fs : FieldList) (s : Serializer) (hne : s.pos ≠ [])
    (ht : hasTextLeafFields fs = true) : ∃ s1 e, serializeFields fs s = .err s1 e := by
  cases fs with
  | fnil => simp [hasTextLeafFields] at ht
  | fcons key v tl =>
    rw [hasTextLeafFields, Bool.or_eq_true] at ht
    rcases ht with ht | ht
    · obtain ⟨s1, e, h1⟩ := serializeValue_textLeaf_err v _ (Serializer.push_key_ne_nil s key) ht
      exact ⟨s1, e, by rw [serializeFields, h1, SRes.andThen]⟩
    · cases hres : serializeValue v (s.push_key key) with
      | ok sa =>
        have hpop : sa.pop.pos = s.pos := by
          rw [Serializer.pop_pos,
            serializeValue_ok_pos v _ _ (Serializer.push_key_ne_nil s key) hres,
            Serializer.push_key_tail]
        obtain ⟨s1, e, h1⟩ := serializeFields_textLeaf_err tl sa.pop (by rw [hpop]; exact hne) ht
        exact ⟨s1, e, by rw [serializeFields, hres, SRes.andThen, h1]⟩
      | err sa e => exact ⟨sa, e, by rw [serializeFields, hres, SRes.andThen]⟩
      | assertFail sa =>
        have hnf := serializeValue_noFail v _ (Serializer.push_key_ne_nil s key)
        rw [hres] at hnf
        simp [SRes.isAssertFail] at hnf
theorem serializeEntries_textLeaf_err (es : EntryList) (s : Serializer) (hne : s.pos ≠ [])
    (ht : hasTextLeafEntries es = true) : ∃ s1 e, serializeEntries es s = .err s1 e := by
  cases es with
  | enil => simp [hasTextLeafEntries] at ht
  | econs k v tl =>
    rw [hasTextLeafEntries, Bool.or_eq_true] at ht
    cases hk : string_extract k with
    | error e0 =>
      refine ⟨s, e0, ?_⟩
      rw [serializeEntries, hk]
    | ok key =>
      have hgoal : serializeEntries (.econs k v tl) s =
          (serializeValue v (s.push_key key)).andThen fun s1 => serializeEntries tl s1.pop := by
        rw [serializeEntries, hk]
      rcases ht with ht | ht
      · obtain ⟨s1, e, h1⟩ := serializeValue_textLeaf_err v _ (Serializer.push_key_ne_nil s key) ht
        exact ⟨s1, e, by rw [hgoal, h1, SRes.andThen]⟩
      · cases hres : serializeValue v (s.push_key key) with
        | ok sa =>
          have hpop : sa.pop.pos = s.pos := by
            rw [Serializer.pop_pos,
              serializeValue_ok_pos v _ _ (Serializer.push_key_ne_nil s key) hres,
              Serializer.push_key_tail]
          obtain ⟨s1, e, h1⟩ := serializeEntries_textLeaf_err tl sa.pop (by rw [hpop]; exact hne) ht
          exact ⟨s1, e, by rw [hgoal, hres, SRes.andThen, h1]⟩
        | err sa e => exact ⟨sa, e, by rw [hgoal, hres, SRes.andThen]⟩
        | assertFail sa =>
          have hnf := serializeValue_noFail v _ (Serializer.push_key_ne_nil s key)
          rw [hres] at hnf
          simp [SRes.isAssertFail] at hnf
end

theorem Serializer.insert_cons {s : Serializer} {top : String} {rest : List String}
    (h : s.pos = top :: rest) (v : F64) :
    s.insert v = .ok { s with output := assocInsert s.output top v } := by
  rw [Serializer.insert, h]

theorem assocLookup_insert (m : List (String × F64)) (k : String) (v : F64) :
    assocLookup (assocInsert m k v) k = some v := by
  induction m with
  | nil => simp [assocInsert, assocLookup]
  | cons hd tl ih =>
    obtain ⟨k1, v1⟩ := hd
    by_cases hk : k1 = k <;> simp [assocInsert, assocLookup, hk, ih]

/-- Claim C1 (code bug): a map whose key serializes as an integer makes
`to_hashmap` fail, and the error it fails with is the `KeyNotString` kind
constructed by the key extractor in `ser.rs` — yet that variant is not
among the variants the public `Error` enum in `error.rs` declares, which
are only `Message`, `Unsupported` and `InternalError`. -/
theorem claim_C1 :
    to_hashmap (.vmap (.econs (.vi64 1) (.vf64 (.num 2)) .enil)) = .error .KeyNotString ∧
    Error.variantName .KeyNotString ∉ errorRsDeclaredVariants := by
  constructor
  · decide
  · decide

/-- Claim C2 (counterexample): after the sequence-element handler runs on an
element whose serialization fails (here a string leaf), the handler returns
Err with the pushed segment still on the path stack — the stack is longer
than before the handler ran, refuting balance on error paths. -/
theorem claim_C2_counterexample :
    serializeElems (.cons (.vstr "x") .nil) (Serializer.new "$")
      = .err { counter := 1, pos := ["$[0]", "$"], output := [] } .Unsupported ∧
    SRes.posLen (serializeElems (.cons (.vstr "x") .nil) (Serializer.new "$"))
      ≠ (Serializer.new "$").pos.length := by
  constructor
  · decide
  · decide

/-- Claim C2 (amended): each push on descent is matched by exactly one pop
when the handlers return Ok — a run of element, field or entry handlers (or
a whole value serialization) that succeeds restores the path stack exactly;
on Err the pushed segment is not popped (the `?` operator returns early)
and the traversal aborts. -/
theorem claim_C2 :
    (∀ (v : Value) (s s1 : Serializer), s.pos ≠ [] →
      serializeValue v s = .ok s1 → s1.pos = s.pos) ∧
    (∀ (vs : ValueList) (s s1 : Serializer), s.pos ≠ [] →
      serializeElems vs s = .ok s1 → s1.pos = s.pos) ∧
    (∀ (fs : FieldList) (s s1 : Serializer), s.pos ≠ [] →
      serializeFields fs s = .ok s1 → s1.pos = s.pos) ∧
    (∀ (es : EntryList) (s s1 : Serializer), s.pos ≠ [] →
      serializeEntries es s = .ok s1 → s1.pos = s.pos) :=
  ⟨fun v s s1 h1 h2 => serializeValue_ok_pos v s s1 h1 h2,
   fun vs s s1 h1 h2 => serializeElems_ok_pos vs s s1 h1 h2,
   fun fs s s1 h1 h2 => serializeFields_ok_pos fs s s1 h1 h2,
   fun es s s1 h1 h2 => serializeEntries_ok_pos es s s1 h1 h2⟩

/-- Witness for claim C2: one successful element-handler run at a concrete
state restores the path stack. -/
theorem claim_C2_witness :
    (Serializer.mk 1 ["$"] [("$[0]", F64.num 1)]).pos = (Serializer.new "$").pos :=
  claim_C2.2.1 (.cons (.vu64 1) .nil) (Serializer.new "$")
    (Serializer.mk 1 ["$"] [("$[0]", F64.num 1)]) (by decide) (by decide)

/-- Claim C3 (counterexample): a struct variant at the root of the input is
written with its discriminant at path "$", not "$._": no "_" segment is
ever pushed, because `is_root` tests for an empty stack while the stack
always holds the seeded root marker. -/
theorem claim_C3_counterexample :
    to_hashmap (.vstructVariant "E" 3 "Struct" (.fcons "a" (.vu64 1) .fnil))
      = .ok [("$", F64.num 3), ("$.a", F64.num 1)] ∧
    assocLookup [("$", F64.num 3), ("$.a", F64.num 1)] "$._" = none ∧
    (Serializer.new "$").is_root = false := by
  refine ⟨?_, ?_, ?_⟩ <;> decide

/-- Claim C3 (amended): for every enum struct variant at the root, `is_root`
is false (the seeded stack is nonempty), so the implicit "_" segment is not
pushed: the discriminant is written at "$" and each field is then
serialized from that unadjusted state. -/
theorem claim_C3 (name : String) (idx : Nat) (variant : String) (fs : FieldList) :
    serializeValue (.vstructVariant name idx variant fs) (Serializer.new "$") =
      serializeFields fs { counter := 0, pos := ["$"], output := [("$", F64.ofNat idx)] } := by
  rw [serializeValue]
  rfl

/-- Claim C4 (code bug): the sequence counter is a single field shared
between nested sequence-like compounds, so indices do not restart at 0 for
a nested compound: serializing the nested sequence [[10], [20]] yields the
single entry "$[0][1]" = 20 (the inner sequence starts at the outer
counter's value; closing it resets the shared counter, so the second outer
element reuses index 0 and its inner element overwrites the first), not the
entries "$[0][0]" = 10 and "$[1][0]" = 20 the claim requires. -/
theorem claim_C4 :
    to_hashmap (.vseq (.cons (.vseq (.cons (.vu64 10) .nil))
        (.cons (.vseq (.cons (.vu64 20) .nil)) .nil)))
      = .ok [("$[0][1]", F64.num 20)] ∧
    assocLookup [("$[0][1]", F64.num 20)] "$[0][0]" = none ∧
    assocLookup [("$[0][1]", F64.num 20)] "$[1][0]" = none := by
  refine ⟨?_, ?_, ?_⟩ <;> decide

/-- Claim C5: the four-variant enum serialized at the root produces exactly
the documented maps: Unit gives one entry "$" = 0; Newtype(1) gives "$" = 1
and "$[0]" = 1; Tuple(1,2) gives "$" = 2, "$[0]" = 1, "$[1]" = 2;
Struct with field a = 1 gives "$" = 3 and "$.a" = 1 (the association lists have
pairwise distinct keys, so list equality is exact map equality and list
length is the entry count). -/
theorem claim_C5 :
    to_hashmap (.vunitVariant "E" 0 "Unit") = .ok [("$", F64.num 0)] ∧
    to_hashmap (.vnewtypeVariant "E" 1 "Newtype" (.vu64 1))
      = .ok [("$", F64.num 1), ("$[0]", F64.num 1)] ∧
    to_hashmap (.vtupleVariant "E" 2 "Tuple" (.cons (.vu64 1) (.cons (.vu64 2) .nil)))
      = .ok [("$", F64.num 2), ("$[0]", F64.num 1), ("$[1]", F64.num 2)] ∧
    to_hashmap (.vstructVariant "E" 3 "Struct" (.fcons "a" (.vu64 1) .fnil))
      = .ok [("$", F64.num 3), ("$.a", F64.num 1)] := by
  refine ⟨?_, ?_, ?_, ?_⟩ <;> decide

/-- Claim C6 (counterexample): an input containing a text leaf in value
position (the value of a map entry) whose map key is an integer fails with
`KeyNotString`, not `Unsupported` — the key is serialized before the value,
so the claimed error kind is wrong for this input. -/
theorem claim_C6_counterexample :
    hasTextLeaf (.vmap (.econs (.vi64 1) (.vstr "x") .enil)) = true ∧
    to_hashmap (.vmap (.econs (.vi64 1) (.vstr "x") .enil)) = .error .KeyNotString ∧
    Error.KeyNotString ≠ Error.Unsupported := by
  refine ⟨?_, ?_, ?_⟩ <;> decide

/-- Claim C6 (amended): every input containing a text, character or byte
leaf in value position makes `to_hashmap` return an error, and that error
is `Unsupported` unless a map key failing string extraction is reached
first, in which case it is `KeyNotString`. -/
theorem claim_C6 (v : Value) (ht : hasTextLeaf v = true) :
    to_hashmap v = .error .Unsupported ∨ to_hashmap v = .error .KeyNotString := by
  obtain ⟨s1, e, h⟩ := serializeValue_textLeaf_err v (Serializer.new "$") (by decide) ht
  have hshape := serializeValue_err v _ s1 e h
  have hmain : to_hashmap v = .error e := by simp only [to_hashmap, h]
  rcases hshape with hu | hu
  · exact Or.inl (hu ▸ hmain)
  · exact Or.inr (hu ▸ hmain)

/-- Witness for claim C6 at a concrete input: a bare string leaf. -/
theorem claim_C6_witness :
    hasTextLeaf (.vstr "a") = true ∧
    (to_hashmap (.vstr "a") = .error .Unsupported ∨
      to_hashmap (.vstr "a") = .error .KeyNotString) :=
  ⟨by decide, claim_C6 (.vstr "a") (by decide)⟩

/-- Claim C7: every input built solely from booleans, integers, floats,
optionals and unit leaves, combined through records, sequences, tuples and
enum variants (the `numericOnly` predicate), serializes successfully. -/
theorem claim_C7 (v : Value) (hn : numericOnly v = true) : (to_hashmap v).isOk = true := by
  obtain ⟨s1, h⟩ := serializeValue_numericOnly_ok v (Serializer.new "$") (by decide) hn
  simp only [to_hashmap, h]
  rfl

/-- Witness for claim C7 at a concrete input: a boolean leaf. -/
theorem claim_C7_witness :
    numericOnly (.vbool true) = true ∧ (to_hashmap (.vbool true)).isOk = true :=
  ⟨by decide, claim_C7 (.vbool true) (by decide)⟩

/-- Claim C8: a present optional is transparent — `to_hashmap` on Some(v)
returns exactly the same outcome as `to_hashmap` on v (serialize_some
serializes the wrapped value with the unchanged serializer state). -/
theorem claim_C8 (v : Value) : to_hashmap (.vsome v) = to_hashmap v := by
  simp only [to_hashmap, serializeValue]

/-- Claim C9: wherever the current path is defined, serializing a unit, an
absent optional, or a unit struct writes a value at the current path whose
is-NaN test is true. -/
theorem claim_C9 (name : String) (s : Serializer) (top : String) (rest : List String)
    (h : s.pos = top :: rest) :
    ((serializeValue .vunit s).lookupAt top).map F64.isNaN = some true ∧
    ((serializeValue .vnone s).lookupAt top).map F64.isNaN = some true ∧
    ((serializeValue (.vunitStruct name) s).lookupAt top).map F64.isNaN = some true := by
  have h1 := Serializer.insert_cons h F64.nan
  refine ⟨?_, ?_, ?_⟩ <;>
    simp [serializeValue, h1, SRes.lookupAt, assocLookup_insert, F64.isNaN]

/-- Witness for claim C9 at the freshly seeded root serializer. -/
theorem claim_C9_witness :
    ((serializeValue .vunit (Serializer.new "$")).lookupAt "$").map F64.isNaN = some true ∧
    ((serializeValue .vnone (Serializer.new "$")).lookupAt "$").map F64.isNaN = some true ∧
    ((serializeValue (.vunitStruct "U") (Serializer.new "$")).lookupAt "$").map F64.isNaN
      = some true :=
  claim_C9 "U" (Serializer.new "$") "$" [] rfl

/-- Claim C10: a traversal started through `to_hashmap` never trips the
non-empty assertion in `Serializer::insert` (the stack keeps the seeded
root entry whenever an insert runs), and no outcome ever carries the
`InternalError` variant. -/
theorem claim_C10 (v : Value) :
    to_hashmap v ≠ .panicked ∧ ∀ e, to_hashmap v = .error e → e ≠ .InternalError := by
  cases hres : serializeValue v (Serializer.new "$") with
  | ok s1 =>
    simp only [to_hashmap, hres]
    exact ⟨by simp, fun e he => by simp at he⟩
  | err s1 e0 =>
    simp only [to_hashmap, hres]
    refine ⟨by simp, fun e he => ?_⟩
    have h4 : e0 = e := by injection he
    rcases serializeValue_err v _ s1 e0 hres with h | h <;> rw [← h4, h] <;> simp
  | assertFail s1 =>
    have hnf := serializeValue_noFail v (Serializer.new "$") (by decide)
    rw [hres] at hnf
    simp [SRes.isAssertFail] at hnf

/-- Witness for claim C10 at a concrete erroring input. -/
theorem claim_C10_witness :
    to_hashmap (.vstr "w") ≠ .panicked ∧ Error.Unsupported ≠ Error.InternalError :=
  ⟨(claim_C10 (.vstr "w")).1, (claim_C10 (.vstr "w")).2 .Unsupported (by decide)⟩

end StateDict
